import Mathlib

/-!
Verification of the per-language structural query registry and
capture-aggregation engine of the resilience-agent prototype.

The query templates are transcribed from `src/tree-sitter-code-changes/java.py`
and `src/test_fixed_java_queries.py`.  The extraction pipeline (registry,
evaluator adapter, capture normalizer, structural extractor, resilience
layer) is modelled from the specification, since the repository holds only
the templates and exploratory test drivers for it.
-/

namespace Resilience

/-- A syntax-tree node as surfaced by the grammar engine: a source span
given as (line, column) start and end points, plus the raw source slice
covered by the node. -/
structure Node where
  startLine : Nat
  startCol : Nat
  endLine : Nat
  endCol : Nat
  text : String
deriving DecidableEq

/-- Lexicographic comparison of (line, column) positions. -/
def posLePair (a b : Nat × Nat) : Bool :=
  decide (a.1 < b.1 ∨ (a.1 = b.1 ∧ a.2 ≤ b.2))

/-- Whether the span of `outer` encloses the span of `inner`. -/
def Node.containsSpan (outer inner : Node) : Bool :=
  posLePair (outer.startLine, outer.startCol) (inner.startLine, inner.startCol) &&
    posLePair (inner.endLine, inner.endCol) (outer.endLine, outer.endCol)

/-- Association-list lookup for grouped captures: the node list registered
under a label, or `[]` when the label is absent. -/
def lookupG : List (String × List Node) → String → List Node
  | [], _ => []
  | g :: rest, lab => if g.fst = lab then g.snd else lookupG rest lab

/-- Concatenation of the images of `f` over a list. -/
def catMaps (f : α → List β) : List α → List β
  | [] => []
  | a :: as => f a ++ catMaps f as

/-- Pair every element of a list with its index, starting at `k`. -/
def idxFrom (k : Nat) : List α → List (Nat × α)
  | [] => []
  | a :: as => (k, a) :: idxFrom (k + 1) as

theorem mem_catMaps {f : α → List β} {b : β} :
    ∀ {l : List α}, b ∈ catMaps f l ↔ ∃ a ∈ l, b ∈ f a := by
  intro l
  induction l with
  | nil => simp [catMaps]
  | cons a as ih => simp [catMaps, ih]

theorem catMaps_eq_nil {f : α → List β} {l : List α}
    (h : ∀ a ∈ l, f a = []) : catMaps f l = [] := by
  induction l with
  | nil => rfl
  | cons a as ih =>
    simp only [catMaps, h a (List.mem_cons_self a as), List.nil_append]
    exact ih fun x hx => h x (List.mem_cons_of_mem a hx)

theorem mem_idxFrom {a : α} : ∀ {l : List α} (k : Nat) {i : Nat},
    l[i]? = some a → (k + i, a) ∈ idxFrom k l := by
  intro l
  induction l with
  | nil => intro k i h; simp at h
  | cons x xs ih =>
    intro k i h
    cases i with
    | zero =>
      simp only [List.getElem?_cons_zero, Option.some.injEq] at h
      subst h
      exact List.mem_cons_self _ _
    | succ j =>
      simp only [List.getElem?_cons_succ] at h
      have hmem := ih (k + 1) h
      have harith : k + 1 + j = k + (j + 1) := by omega
      rw [harith] at hmem
      exact List.mem_cons_of_mem _ hmem

theorem mem_idxFrom_zero {a : α} {l : List α} {i : Nat}
    (h : l[i]? = some a) : (i, a) ∈ idxFrom 0 l := by
  have hmem := mem_idxFrom 0 h
  simpa using hmem

/-- Lexicographic comparison on character lists, used to fix a canonical
order of capture labels. -/
def chLe : List Char → List Char → Bool
  | [], _ => true
  | _ :: _, [] => false
  | a :: as, b :: bs => if a < b then true else if b < a then false else chLe as bs

theorem chLe_total : ∀ as bs : List Char, chLe as bs = true ∨ chLe bs as = true
  | [], _ => Or.inl rfl
  | _ :: _, [] => Or.inr rfl
  | a :: as, b :: bs => by
    rcases lt_trichotomy a b with h | h | h
    · left
      simp [chLe, h]
    · subst h
      rcases chLe_total as bs with ih | ih <;>
        simp [chLe, lt_irrefl, ih]
    · right
      simp [chLe, h]

theorem chLe_trans : ∀ as bs cs : List Char,
    chLe as bs = true → chLe bs cs = true → chLe as cs = true
  | [], _, _ => by intro _ _; rfl
  | _ :: _, [], _ => by intro h _; simp [chLe] at h
  | _ :: _, _ :: _, [] => by intro _ h; simp [chLe] at h
  | a :: as, b :: bs, c :: cs => by
    intro h1 h2
    simp only [chLe] at h1 h2 ⊢
    rcases lt_trichotomy a b with hab | hab | hab
    · rcases lt_trichotomy b c with hbc | hbc | hbc
      · simp [lt_trans hab hbc]
      · subst hbc; simp [hab]
      · simp [not_lt_of_gt hbc, hbc] at h2
    · subst hab
      rcases lt_trichotomy a c with hac | hac | hac
      · simp [hac]
      · subst hac
        simp [lt_irrefl] at h1 h2 ⊢
        exact chLe_trans as bs cs h1 h2
      · simp [not_lt_of_gt hac, hac] at h2
    · simp [not_lt_of_gt hab, hab] at h1

theorem chLe_antisymm : ∀ as bs : List Char,
    chLe as bs = true → chLe bs as = true → as = bs
  | [], [] => by intro _ _; rfl
  | [], _ :: _ => by intro _ h; simp [chLe] at h
  | _ :: _, [] => by intro h _; simp [chLe] at h
  | a :: as, b :: bs => by
    intro h1 h2
    simp only [chLe] at h1 h2
    rcases lt_trichotomy a b with hab | hab | hab
    · simp [hab, not_lt_of_gt hab] at h2
    · subst hab
      simp [lt_irrefl] at h1 h2
      rw [chLe_antisymm as bs h1 h2]
    · simp [hab, not_lt_of_gt hab] at h1

/-- Canonical order on capture labels. -/
def labLe (a b : String) : Prop := chLe a.toList b.toList = true

instance : DecidableRel labLe := fun a b =>
  inferInstanceAs (Decidable (chLe a.toList b.toList = true))

instance : IsTotal String labLe :=
  ⟨fun a b => chLe_total a.toList b.toList⟩

instance : IsTrans String labLe :=
  ⟨fun a b c h1 h2 => chLe_trans a.toList b.toList c.toList h1 h2⟩

instance : IsAntisymm String labLe :=
  ⟨fun a b h1 h2 => String.toList_inj.mp (chLe_antisymm a.toList b.toList h1 h2)⟩

/-- Modelled from the spec: the query evaluator's raw output arrives in one
of "two possible shapes: an ordered list of (node, label) pairs, or a
mapping from label to list of nodes" (test_java_queries.py iterates the
pair shape, test_fixed_java_queries.py and inspect_java_ast.py branch on
the mapping shape). -/
inductive RawCaptures where
  | flat (pairs : List (Node × String))
  | grouped (groups : List (String × List Node))
deriving DecidableEq

/-- The labels that carry at least one capture in a raw result. -/
def rawLabels : RawCaptures → List String
  | .flat ps => ps.map Prod.snd
  | .grouped gs => (gs.filter fun g => decide (g.snd ≠ [])).map Prod.fst

/-- The ordered list of nodes captured under one label in a raw result. -/
def rawNodes : RawCaptures → String → List Node
  | .flat ps, lab => (ps.filter fun p => decide (p.snd = lab)).map Prod.fst
  | .grouped gs, lab => catMaps Prod.snd (gs.filter fun g => decide (g.fst = lab))

/-- The canonically ordered, duplicate-free list of capture labels of a raw
result. -/
def sortedLabels (r : RawCaptures) : List String :=
  ((rawLabels r).insertionSort labLe).dedup

/-- Modelled from the spec: the Capture Normalizer converts the raw output
into "one canonical shape: a mapping from label to ordered list of nodes,
independent of evaluator version". -/
def normalize (r : RawCaptures) : List (String × List Node) :=
  (sortedLabels r).map fun lab => (lab, rawNodes r lab)

theorem mem_sortedLabels {r : RawCaptures} {lab : String} :
    lab ∈ sortedLabels r ↔ lab ∈ rawLabels r := by
  simp [sortedLabels, List.mem_dedup, List.mem_insertionSort]

theorem nodup_sortedLabels (r : RawCaptures) : (sortedLabels r).Nodup :=
  List.nodup_dedup _

theorem sorted_sortedLabels (r : RawCaptures) : (sortedLabels r).Sorted labLe :=
  List.Pairwise.sublist (List.dedup_sublist _) (List.sorted_insertionSort labLe _)

theorem mem_rawLabels {r : RawCaptures} {lab : String} :
    lab ∈ rawLabels r ↔ rawNodes r lab ≠ [] := by
  cases r with
  | flat ps =>
    simp only [rawLabels, rawNodes]
    constructor
    · intro h hnil
      rcases List.mem_map.mp h with ⟨p, hp, rfl⟩
      have hmem : p.fst ∈ (ps.filter fun q => decide (q.snd = p.snd)).map Prod.fst :=
        List.mem_map.mpr ⟨p, List.mem_filter.mpr ⟨hp, by simp⟩, rfl⟩
      rw [hnil] at hmem
      exact absurd hmem (List.not_mem_nil _)
    · intro hne
      rcases List.exists_mem_of_ne_nil _ hne with ⟨n, hn⟩
      rcases List.mem_map.mp hn with ⟨p, hpf, rfl⟩
      rcases List.mem_filter.mp hpf with ⟨hp, hlab⟩
      simp only [decide_eq_true_eq] at hlab
      exact List.mem_map.mpr ⟨p, hp, hlab⟩
  | grouped gs =>
    simp only [rawLabels, rawNodes, List.mem_map, List.mem_filter,
      decide_eq_true_eq, ne_eq]
    constructor
    · rintro ⟨g, ⟨hg, hne⟩, hlab⟩ hnil
      apply hne
      rw [List.eq_nil_iff_forall_not_mem]
      intro n hn
      rw [List.eq_nil_iff_forall_not_mem] at hnil
      exact hnil n (mem_catMaps.mpr ⟨g, List.mem_filter.mpr ⟨hg, by simp [hlab]⟩, hn⟩)
    · intro hne
      rcases List.exists_mem_of_ne_nil _ hne with ⟨n, hn⟩
      rcases mem_catMaps.mp hn with ⟨g, hg, hng⟩
      rcases List.mem_filter.mp hg with ⟨hgs, hglab⟩
      simp only [decide_eq_true_eq] at hglab
      exact ⟨g, ⟨hgs, fun h => by simp [h] at hng⟩, hglab⟩

theorem lookupG_map_keyed (ls : List String) (f : String → List Node) (lab : String) :
    lookupG (ls.map fun l => (l, f l)) lab = if lab ∈ ls then f lab else [] := by
  induction ls with
  | nil => simp [lookupG]
  | cons l rest ih =>
    simp only [List.map_cons, lookupG]
    by_cases h : l = lab
    · subst h
      simp
    · rw [if_neg h, ih]
      by_cases hmem : lab ∈ rest
      · rw [if_pos hmem, if_pos (List.mem_cons_of_mem _ hmem)]
      · have hnc : lab ∉ l :: rest := by
          intro hcon
          rcases List.mem_cons.mp hcon with hh | hh
          · exact h hh.symm
          · exact hmem hh
        rw [if_neg hmem, if_neg hnc]

theorem lookupG_normalize (r : RawCaptures) (lab : String) :
    lookupG (normalize r) lab = rawNodes r lab := by
  rw [normalize, lookupG_map_keyed]
  by_cases h : lab ∈ sortedLabels r
  · simp [h]
  · rw [if_neg h]
    rw [mem_sortedLabels, mem_rawLabels] at h
    simp only [ne_eq, not_not] at h
    exact h.symm

theorem sorted_nodup_ext {l1 l2 : List String}
    (h1 : l1.Sorted labLe) (h2 : l2.Sorted labLe)
    (hn1 : l1.Nodup) (hn2 : l2.Nodup)
    (hmem : ∀ a, a ∈ l1 ↔ a ∈ l2) : l1 = l2 :=
  List.eq_of_perm_of_sorted ((List.perm_ext_iff_of_nodup hn1 hn2).mpr hmem) h1 h2

theorem normalize_ext {r1 r2 : RawCaptures}
    (h : ∀ lab, rawNodes r1 lab = rawNodes r2 lab) : normalize r1 = normalize r2 := by
  have hlabels : sortedLabels r1 = sortedLabels r2 := by
    apply sorted_nodup_ext (sorted_sortedLabels r1) (sorted_sortedLabels r2)
      (nodup_sortedLabels r1) (nodup_sortedLabels r2)
    intro a
    rw [mem_sortedLabels, mem_sortedLabels, mem_rawLabels, mem_rawLabels, h a]
  rw [normalize, normalize, hlabels]
  have hfun : (fun lab => (lab, rawNodes r1 lab)) = fun lab => (lab, rawNodes r2 lab) :=
    funext fun lab => by rw [h lab]
  rw [hfun]

theorem nodup_filter_eq (lab : String) :
    ∀ ls : List String, ls.Nodup →
      ls.filter (fun l => decide (l = lab)) = if lab ∈ ls then [lab] else [] := by
  intro ls
  induction ls with
  | nil => intro _; simp
  | cons l rest ih =>
    intro hnd
    rcases List.nodup_cons.mp hnd with ⟨hnl, hnd'⟩
    by_cases h : l = lab
    · subst h
      rw [List.filter_cons_of_pos (by simp), ih hnd', if_neg hnl,
        if_pos (List.mem_cons_self _ _)]
    · rw [List.filter_cons_of_neg (by simp [h]), ih hnd']
      by_cases hmem : lab ∈ rest
      · rw [if_pos hmem, if_pos (List.mem_cons_of_mem _ hmem)]
      · have hnc : lab ∉ l :: rest := by
          intro hcon
          rcases List.mem_cons.mp hcon with hh | hh
          · exact h hh.symm
          · exact hmem hh
        rw [if_neg hmem, if_neg hnc]

/-- Re-delivering an already-normalized result through the grouped (mapping)
shape describes the same captures label by label. -/
theorem rawNodes_grouped_normalize (r : RawCaptures) (lab : String) :
    rawNodes (.grouped (normalize r)) lab = rawNodes r lab := by
  have hstep : rawNodes (.grouped (normalize r)) lab
      = catMaps Prod.snd ((normalize r).filter fun g => decide (g.fst = lab)) := rfl
  rw [hstep, normalize, List.filter_map]
  have hcomp :
      ((fun g : String × List Node => decide (g.fst = lab)) ∘
        fun l => (l, rawNodes r l)) = fun l => decide (l = lab) := rfl
  rw [hcomp, nodup_filter_eq lab _ (nodup_sortedLabels r)]
  by_cases h : lab ∈ sortedLabels r
  · simp [h, catMaps]
  · rw [if_neg h]
    rw [mem_sortedLabels, mem_rawLabels] at h
    simp only [ne_eq, not_not] at h
    simp [catMaps, h.symm]

/-- Modelled from the spec: the Structural Entity output unit
"category, label, name (optional), start_line, start_col, end_line,
end_col, source_text". -/
structure Entity where
  category : String
  label : String
  name : Option String
  startLine : Nat
  startCol : Nat
  endLine : Nat
  endCol : Nat
  sourceText : String
deriving DecidableEq

/-- Non-decreasing source-position (document) order on entities. -/
def Entity.posLe (a b : Entity) : Prop :=
  a.startLine < b.startLine ∨ (a.startLine = b.startLine ∧ a.startCol ≤ b.startCol)

instance : DecidableRel Entity.posLe := fun a b => by
  unfold Entity.posLe
  infer_instance

instance : IsTotal Entity Entity.posLe :=
  ⟨fun a b => by unfold Entity.posLe; omega⟩

instance : IsTrans Entity Entity.posLe :=
  ⟨fun a b c => by unfold Entity.posLe; omega⟩

/-- The byte-free span of an entity. -/
def Entity.span (e : Entity) : Nat × Nat × Nat × Nat :=
  (e.startLine, e.startCol, e.endLine, e.endCol)

/-- The (category, span, label) identification triple of an entity. -/
def Entity.triple (e : Entity) : String × (Nat × Nat × Nat × Nat) × String :=
  (e.category, e.span, e.label)

/-- Whether the span of an entity encloses the span of a node. -/
def Entity.coversNode (e : Entity) (m : Node) : Bool :=
  posLePair (e.startLine, e.startCol) (m.startLine, m.startCol) &&
    posLePair (m.endLine, m.endCol) (e.endLine, e.endCol)

/-- The label that supplies an entity's name for an outer capture label. -/
def nameLabel (lab : String) : String := lab ++ ".name"

/-- Modelled from the spec: "the label without a dotted suffix (or the
outermost label) supplies the entity's span and source_text". -/
def isOuterLabel (lab : String) : Bool :=
  !(lab.toList.any fun c => decide (c = '.'))

/-- Modelled from the spec: within one match, "the label ending in `.name`
(if present within a match) supplies the entity's `name`"; matches are
reconstructed by "grouping by enclosing span". -/
def matchName (canonical : List (String × List Node)) (outerLab : String)
    (n : Node) : Option Node :=
  (lookupG canonical (nameLabel outerLab)).find? fun m => n.containsSpan m

/-- Build one Structural Entity from an outer capture node. -/
def mkEntity (cat lab : String) (canonical : List (String × List Node))
    (n : Node) : Entity :=
  ⟨cat, lab, (matchName canonical lab n).map Node.text,
    n.startLine, n.startCol, n.endLine, n.endCol, n.text⟩

/-- Modelled from the spec: group normalized capture events by match and
append "one Structural Entity per match". -/
def entitiesOfCanonical (cat : String)
    (canonical : List (String × List Node)) : List Entity :=
  catMaps (fun g => g.snd.map (mkEntity cat g.fst canonical))
    (canonical.filter fun g => isOuterLabel g.fst)

theorem mem_entitiesOfCanonical {cat : String}
    {canonical : List (String × List Node)} {e : Entity} :
    e ∈ entitiesOfCanonical cat canonical ↔
      ∃ g ∈ canonical, isOuterLabel g.fst = true ∧
        ∃ n ∈ g.snd, e = mkEntity cat g.fst canonical n := by
  simp only [entitiesOfCanonical, mem_catMaps, List.mem_filter, List.mem_map]
  constructor
  · rintro ⟨g, ⟨hg, houter⟩, n, hn, rfl⟩
    exact ⟨g, hg, houter, n, hn, rfl⟩
  · rintro ⟨g, hg, houter, n, hn, rfl⟩
    exact ⟨g, ⟨hg, houter⟩, n, hn, rfl⟩

theorem category_mkEntity (cat lab : String)
    (canonical : List (String × List Node)) (n : Node) :
    (mkEntity cat lab canonical n).category = cat := rfl

/-- Modelled from the spec's error taxonomy: `QueryCompileError` for a
pattern incompatible with the active grammar, and a catch-all for "any
evaluation-time failure". -/
inductive QueryError where
  | queryCompileError (message : String)
  | evalFailure (message : String)
deriving DecidableEq

/-- The human-readable message of a query error. -/
def QueryError.message : QueryError → String
  | .queryCompileError m => m
  | .evalFailure m => m

/-- Modelled from the spec: a recorded diagnostic carries
"(language, category, pattern index, error)". -/
structure Diagnostic where
  language : String
  category : String
  patternIndex : Nat
  errorMessage : String
deriving DecidableEq

/-- Modelled from the spec: the Query Resilience Layer wraps one pattern
evaluation; on failure it "records a diagnostic …, treats that pattern's
contribution as an empty result set, and allows extraction to continue". -/
def runPattern (lang cat : String) (idx : Nat)
    (evalQ : String → Except QueryError RawCaptures) (pat : String) :
    List Entity × List Diagnostic :=
  match evalQ pat with
  | .ok raw => (entitiesOfCanonical cat (normalize raw), [])
  | .error err => ([], [⟨lang, cat, idx, err.message⟩])

/-- Run every pattern of one category under the resilience layer. -/
def patternResults (lang cat : String)
    (evalQ : String → Except QueryError RawCaptures) (pats : List String) :
    List (List Entity × List Diagnostic) :=
  (idxFrom 0 pats).map fun ip => runPattern lang cat ip.fst evalQ ip.snd

/-- Modelled from the spec: entities of one category, merged "by start
position when multiple patterns contribute to the same category". -/
def mergedEntities (lang cat : String)
    (evalQ : String → Except QueryError RawCaptures) (pats : List String) :
    List Entity :=
  List.insertionSort Entity.posLe
    (catMaps Prod.fst (patternResults lang cat evalQ pats))

/-- Drop an entity when an entity with the same (category, span, label)
triple was already kept, per the spec's edge-case policy: "only exact
duplicate (category, span, label) triples are collapsed". -/
def dedupTriplesGo : List (String × (Nat × Nat × Nat × Nat) × String) →
    List Entity → List Entity
  | _, [] => []
  | seen, e :: es =>
    if e.triple ∈ seen then dedupTriplesGo seen es
    else e :: dedupTriplesGo (e.triple :: seen) es

/-- Collapse exact duplicate (category, span, label) triples. -/
def dedupTriples (l : List Entity) : List Entity := dedupTriplesGo [] l

/-- One category's extraction result: its ordered entity list and the
diagnostics recorded by the resilience layer. -/
def extractCategory (lang cat : String) (pats : List String)
    (evalQ : String → Except QueryError RawCaptures) :
    List Entity × List Diagnostic :=
  (dedupTriples (mergedEntities lang cat evalQ pats),
    catMaps Prod.snd (patternResults lang cat evalQ pats))

/-- Modelled from the spec: the Structural Extractor runs every category of
the template set and returns "the accumulated {category → entities}
mapping" together with the structured diagnostics. -/
def extract (lang : String) (templates : List (String × List String))
    (evalQ : String → Except QueryError RawCaptures) :
    List (String × List Entity) × List Diagnostic :=
  (templates.map fun c => (c.fst, (extractCategory lang c.fst c.snd evalQ).fst),
    catMaps (fun c => (extractCategory lang c.fst c.snd evalQ).snd) templates)

theorem dedupTriplesGo_sublist :
    ∀ (seen : List (String × (Nat × Nat × Nat × Nat) × String)) (l : List Entity),
      List.Sublist (dedupTriplesGo seen l) l := by
  intro seen l
  induction l generalizing seen with
  | nil => exact List.Sublist.refl _
  | cons e es ih =>
    simp only [dedupTriplesGo]
    by_cases h : e.triple ∈ seen
    · rw [if_pos h]
      exact List.Sublist.cons e (ih seen)
    · rw [if_neg h]
      exact List.Sublist.cons₂ e (ih _)

theorem dedupTriplesGo_not_seen :
    ∀ (seen : List (String × (Nat × Nat × Nat × Nat) × String)) (l : List Entity),
      ∀ e ∈ dedupTriplesGo seen l, e.triple ∉ seen := by
  intro seen l
  induction l generalizing seen with
  | nil => intro e he; simp [dedupTriplesGo] at he
  | cons f fs ih =>
    intro e he
    simp only [dedupTriplesGo] at he
    by_cases h : f.triple ∈ seen
    · rw [if_pos h] at he
      exact ih seen e he
    · rw [if_neg h] at he
      rcases List.mem_cons.mp he with rfl | he'
      · exact h
      · intro hcon
        exact ih _ e he' (List.mem_cons_of_mem _ hcon)

theorem dedupTriplesGo_nodup :
    ∀ (seen : List (String × (Nat × Nat × Nat × Nat) × String)) (l : List Entity),
      (dedupTriplesGo seen l).Pairwise fun a b => a.triple ≠ b.triple := by
  intro seen l
  induction l generalizing seen with
  | nil => exact List.Pairwise.nil
  | cons f fs ih =>
    simp only [dedupTriplesGo]
    by_cases h : f.triple ∈ seen
    · rw [if_pos h]; exact ih seen
    · rw [if_neg h]
      refine List.Pairwise.cons ?_ (ih _)
      intro e he hcon
      exact dedupTriplesGo_not_seen _ _ e he (by rw [hcon]; exact List.mem_cons_self _ _)

theorem dedupTriplesGo_retains :
    ∀ (seen : List (String × (Nat × Nat × Nat × Nat) × String)) (l : List Entity),
      ∀ e ∈ l, e.triple ∉ seen →
        ∃ e2 ∈ dedupTriplesGo seen l, e2.triple = e.triple := by
  intro seen l
  induction l generalizing seen with
  | nil => intro e he; simp at he
  | cons f fs ih =>
    intro e he hseen
    simp only [dedupTriplesGo]
    rcases List.mem_cons.mp he with rfl | he'
    · rw [if_neg hseen]
      exact ⟨e, List.mem_cons_self _ _, rfl⟩
    · by_cases h : f.triple ∈ seen
      · rw [if_pos h]
        exact ih seen e he' hseen
      · rw [if_neg h]
        by_cases heq : e.triple = f.triple
        · exact ⟨f, List.mem_cons_self _ _, heq.symm⟩
        · have hseen' : e.triple ∉ f.triple :: seen := by
            intro hcon
            rcases List.mem_cons.mp hcon with hh | hh
            · exact heq hh
            · exact hseen hh
          rcases ih _ e he' hseen' with ⟨e2, he2, htr⟩
          exact ⟨e2, List.mem_cons_of_mem _ he2, htr⟩

theorem dedupTriples_retains {l : List Entity} {e : Entity} (he : e ∈ l) :
    ∃ e2 ∈ dedupTriples l, e2.triple = e.triple :=
  dedupTriplesGo_retains [] l e he (List.not_mem_nil _)

/-- Query string of the "functions" category, transcribed from
src/tree-sitter-code-changes/java.py. -/
def javaFunctionsQuery : String :=
  "\n        (method_declaration\n            name: (identifier) @function.name) @function\n\n        (constructor_declaration\n            name: (identifier) @constructor.name) @constructor\n    "

/-- Query string of the "classes" category, transcribed from
src/tree-sitter-code-changes/java.py. -/
def javaClassesQuery : String :=
  "\n        (class_declaration\n            name: (identifier) @class.name) @class\n    "

/-- Query string of the "interfaces" category, transcribed from
src/tree-sitter-code-changes/java.py. -/
def javaInterfacesQuery : String :=
  "\n        (interface_declaration\n            name: (identifier) @interface.name) @interface\n    "

/-- Query string of the "imports" category, transcribed from
src/tree-sitter-code-changes/java.py. -/
def javaImportsQuery : String :=
  "\n        (import_declaration) @import\n    "

/-- Query string of the "annotations" category, transcribed from
src/tree-sitter-code-changes/java.py. -/
def javaAnnotationsQuery : String :=
  "\n        (marker_annotation\n            name: (identifier) @annotation.name) @annotation\n\n        (annotation\n            name: (identifier) @annotation.name) @annotation\n    "

/-- Query string of the "enums" category, transcribed from
src/tree-sitter-code-changes/java.py. -/
def javaEnumsQuery : String :=
  "\n        (enum_declaration\n            name: (identifier) @enum.name) @enum\n    "

/-- The registered Java template set, transcribed entry by entry from
TEMPLATES in src/tree-sitter-code-changes/java.py. -/
def TEMPLATES : List (String × String) :=
  [("functions", javaFunctionsQuery),
   ("classes", javaClassesQuery),
   ("interfaces", javaInterfacesQuery),
   ("imports", javaImportsQuery),
   ("annotations", javaAnnotationsQuery),
   ("enums", javaEnumsQuery)]

/-- The corrected template set, transcribed entry by entry from
FIXED_TEMPLATES in src/test_fixed_java_queries.py. -/
def FIXED_TEMPLATES : List (String × String) :=
  [("functions",
    "\n        (method_declaration\n            name: (identifier) @function.name) @function\n\n        (constructor_declaration\n            name: (identifier) @constructor.name) @constructor\n    "),
   ("classes",
    "\n        (class_declaration\n            name: (identifier) @class.name) @class\n    "),
   ("interfaces",
    "\n        (interface_declaration\n            name: (identifier) @interface.name) @interface\n    "),
   ("imports",
    "\n        (import_declaration) @import\n    "),
   ("annotations",
    "\n        (marker_annotation\n            name: (identifier) @annotation.name) @annotation\n\n        (annotation\n            name: (identifier) @annotation.name) @annotation\n    ")]

/-- The Java template set in the extractor's category-to-pattern-list
shape; java.py supplies one query string per category. -/
def javaTemplateSet : List (String × List String) :=
  TEMPLATES.map fun c => (c.fst, [c.snd])

/-- Modelled from the spec: `UnsupportedLanguage` is the one fatal error of
the Query Template Registry. -/
inductive ExtractError where
  | unsupportedLanguage (language : String)
deriving DecidableEq

/-- The shared, read-only Query Template Registry; java.py is the only
template module in the repository. -/
def registry : List (String × List (String × List String)) :=
  [("java", javaTemplateSet)]

/-- Modelled from the spec: "get_templates(language) → Query Template Set,
failing with UnsupportedLanguage when no template set is registered". -/
def get_templates (lang : String) :
    Except ExtractError (List (String × List String)) :=
  match registry.lookup lang with
  | some t => Except.ok t
  | none => Except.error (ExtractError.unsupportedLanguage lang)

/-- Modelled from the spec: `extract(language, source_bytes)` resolves the
language through the registry and runs the Structural Extractor. -/
def extractLang (lang : String)
    (evalQ : String → Except QueryError RawCaptures) :
    Except ExtractError (List (String × List Entity) × List Diagnostic) :=
  Except.map (fun t => extract lang t evalQ) (get_templates lang)

/-- The type of the shared registry state. -/
abbrev Registry := List (String × List (String × List String))

/-- Modelled from the spec: extraction "holds no locks and mutates no
shared state"; the registry is threaded explicitly and handed back. -/
def extractThreaded (reg : Registry) (lang : String)
    (evalQ : String → Except QueryError RawCaptures) :
    Except ExtractError (List (String × List Entity) × List Diagnostic) × Registry :=
  (match reg.lookup lang with
   | some t => Except.ok (extract lang t evalQ)
   | none => Except.error (ExtractError.unsupportedLanguage lang),
   reg)

/-- Characters that may occur in a capture label of a query-pattern. -/
def isLabelChar (c : Char) : Bool := c.isAlphanum || decide (c = '.') || decide (c = '_')

/-- Scanner state machine collecting the @-prefixed capture labels of a
query-pattern string. -/
def tokensGo : List Char → Option (List Char) → List String
  | [], none => []
  | [], some acc => [String.mk acc.reverse]
  | c :: cs, none =>
    if c = '@' then tokensGo cs (some []) else tokensGo cs none
  | c :: cs, some acc =>
    if isLabelChar c then tokensGo cs (some (c :: acc))
    else
      String.mk acc.reverse ::
        (if c = '@' then tokensGo cs (some []) else tokensGo cs none)

/-- The capture labels declared by a query-pattern string, in order of
occurrence. -/
def captureTokens (pat : String) : List String := tokensGo pat.toList none

/-- Modelled from the spec's scenario: the wildcard import declaration of a
file with one class, one constructor, one annotated method and one
wildcard import. -/
def importNode : Node := ⟨0, 0, 0, 11, "import p.*;"⟩

/-- Modelled from the spec's scenario: the class declaration node. -/
def classNode : Node :=
  ⟨2, 0, 7, 1, "class C \x7b\n    C() \x7b\x7d\n\n    @Anno\n    void m() \x7b\x7d\n\x7d"⟩

/-- Modelled from the spec's scenario: the class name identifier node. -/
def classNameNode : Node := ⟨2, 6, 2, 7, "C"⟩

/-- Modelled from the spec's scenario: the constructor declaration node. -/
def ctorNode : Node := ⟨3, 4, 3, 10, "C() \x7b\x7d"⟩

/-- Modelled from the spec's scenario: the constructor name node. -/
def ctorNameNode : Node := ⟨3, 4, 3, 5, "C"⟩

/-- Modelled from the spec's scenario: the annotated method declaration
node (the Java grammar keeps a method's annotations inside its span). -/
def methodNode : Node := ⟨5, 4, 6, 15, "@Anno\n    void m() \x7b\x7d"⟩

/-- Modelled from the spec's scenario: the method name identifier node. -/
def methodNameNode : Node := ⟨6, 9, 6, 10, "m"⟩

/-- Modelled from the spec's scenario: the marker annotation node. -/
def annoNode : Node := ⟨5, 4, 5, 9, "@Anno"⟩

/-- Modelled from the spec's scenario: the annotation name node. -/
def annoNameNode : Node := ⟨5, 5, 5, 9, "Anno"⟩

/-- Modelled from the spec: the Grammar Provider and Query Evaluator are
external; this evaluator returns the capture events the Java grammar
produces on the scenario file for each registered query string. -/
def scenarioEval (pat : String) : Except QueryError RawCaptures :=
  if pat = javaFunctionsQuery then
    Except.ok (RawCaptures.flat
      [(ctorNode, "constructor"), (ctorNameNode, "constructor.name"),
       (methodNode, "function"), (methodNameNode, "function.name")])
  else if pat = javaClassesQuery then
    Except.ok (RawCaptures.flat [(classNode, "class"), (classNameNode, "class.name")])
  else if pat = javaInterfacesQuery then
    Except.ok (RawCaptures.flat [])
  else if pat = javaImportsQuery then
    Except.ok (RawCaptures.flat [(importNode, "import")])
  else if pat = javaAnnotationsQuery then
    Except.ok (RawCaptures.flat [(annoNode, "annotation"), (annoNameNode, "annotation.name")])
  else if pat = javaEnumsQuery then
    Except.ok (RawCaptures.flat [])
  else
    Except.error (QueryError.queryCompileError "node type not in scenario grammar")

theorem extract_keys (lang : String) (T : List (String × List String))
    (evalQ : String → Except QueryError RawCaptures) :
    (extract lang T evalQ).fst.map Prod.fst = T.map Prod.fst := by
  simp only [extract, List.map_map]
  rfl

theorem lookup_extract (lang : String) (T : List (String × List String))
    (evalQ : String → Except QueryError RawCaptures) (cat : String) :
    (extract lang T evalQ).fst.lookup cat =
      (T.lookup cat).map fun pats => (extractCategory lang cat pats evalQ).fst := by
  induction T with
  | nil => rfl
  | cons c rest ih =>
    simp only [extract, List.map_cons, List.lookup] at ih ⊢
    by_cases h : cat = c.fst
    · subst h
      have hbeq : (c.fst == c.fst) = true := beq_self_eq_true c.fst
      simp [hbeq]
    · have hbeq : (cat == c.fst) = false := beq_eq_false_iff_ne.mpr h
      simp only [hbeq]
      exact ih

theorem lookup_mem {T : List (String × List String)} {cat : String}
    {pats : List String} (h : T.lookup cat = some pats) : (cat, pats) ∈ T := by
  induction T with
  | nil => simp [List.lookup] at h
  | cons c rest ih =>
    simp only [List.lookup] at h
    by_cases hc : cat = c.fst
    · subst hc
      rw [beq_self_eq_true] at h
      simp only [Option.some.injEq] at h
      subst h
      exact List.mem_cons_self _ _
    · have hbeq : (cat == c.fst) = false := beq_eq_false_iff_ne.mpr hc
      rw [hbeq] at h
      exact List.mem_cons_of_mem _ (ih h)

/-- Remove the pattern at index `i` from the category `cat` of a template
set, leaving every other category untouched. -/
def removePattern (T : List (String × List String)) (cat : String) (i : Nat) :
    List (String × List String) :=
  T.map fun c => if c.fst = cat then (c.fst, c.snd.eraseIdx i) else c

theorem lookup_removePattern (T : List (String × List String))
    (cat : String) (i : Nat) {cat' : String} (h : cat' ≠ cat) :
    (removePattern T cat i).lookup cat' = T.lookup cat' := by
  induction T with
  | nil => rfl
  | cons c rest ih =>
    simp only [removePattern, List.map_cons] at ih ⊢
    by_cases hcc : c.fst = cat
    · rw [if_pos hcc]
      have hbeq : (cat' == c.fst) = false :=
        beq_eq_false_iff_ne.mpr (by rw [hcc]; exact h)
      simp only [List.lookup, hbeq]
      exact ih
    · rw [if_neg hcc]
      simp only [List.lookup]
      cases cat' == c.fst
      · exact ih
      · rfl

theorem runPattern_fst (lang cat : String) (idx : Nat)
    (evalQ : String → Except QueryError RawCaptures) (pat : String) :
    (runPattern lang cat idx evalQ pat).fst =
      entitiesOfCanonical cat
        (match evalQ pat with
         | Except.ok raw => normalize raw
         | Except.error _ => []) := by
  cases h : evalQ pat <;> simp [runPattern, h, entitiesOfCanonical, catMaps]

/-- The canonical capture groups one pattern yields under one evaluator
(empty on failure, per the resilience layer). -/
def canonicalOf (evalQ : String → Except QueryError RawCaptures)
    (pat : String) : List (String × List Node) :=
  match evalQ pat with
  | Except.ok raw => normalize raw
  | Except.error _ => []

theorem snd_mem_of_mem_idxFrom {ip : Nat × α} :
    ∀ {l : List α} {k : Nat}, ip ∈ idxFrom k l → ip.snd ∈ l := by
  intro l
  induction l with
  | nil => intro k hmem; simp [idxFrom] at hmem
  | cons a as ih =>
    intro k hmem
    rcases List.mem_cons.mp hmem with rfl | hmem'
    · exact List.mem_cons_self _ _
    · exact List.mem_cons_of_mem _ (ih hmem')

theorem mem_extractCategory {lang cat : String} {pats : List String}
    {evalQ : String → Except QueryError RawCaptures} {e : Entity}
    (he : e ∈ (extractCategory lang cat pats evalQ).fst) :
    ∃ pat ∈ pats, e ∈ entitiesOfCanonical cat (canonicalOf evalQ pat) := by
  have h1 : e ∈ mergedEntities lang cat evalQ pats :=
    (dedupTriplesGo_sublist [] _).subset he
  have h2 : e ∈ catMaps Prod.fst (patternResults lang cat evalQ pats) :=
    (List.mem_insertionSort _).mp h1
  rcases mem_catMaps.mp h2 with ⟨pr, hpr, hepr⟩
  rcases List.mem_map.mp hpr with ⟨ip, hip, rfl⟩
  rw [runPattern_fst] at hepr
  exact ⟨ip.snd, snd_mem_of_mem_idxFrom hip, hepr⟩

theorem mem_lookupG {c : List (String × List Node)} {lab : String} {m : Node}
    (h : m ∈ lookupG c lab) : ∃ g ∈ c, m ∈ g.snd := by
  induction c with
  | nil => simp [lookupG] at h
  | cons g rest ih =>
    simp only [lookupG] at h
    by_cases hg : g.fst = lab
    · rw [if_pos hg] at h
      exact ⟨g, List.mem_cons_self _ _, h⟩
    · rw [if_neg hg] at h
      rcases ih h with ⟨g2, hg2, hm⟩
      exact ⟨g2, List.mem_cons_of_mem _ hg2, hm⟩

theorem lookupG_eq_nil {c : List (String × List Node)} {lab : String}
    (h : ∀ g ∈ c, g.fst ≠ lab) : lookupG c lab = [] := by
  induction c with
  | nil => rfl
  | cons g rest ih =>
    simp only [lookupG]
    rw [if_neg (h g (List.mem_cons_self _ _))]
    exact ih fun g2 hg2 => h g2 (List.mem_cons_of_mem _ hg2)

theorem naming_core {cat : String} {canonical : List (String × List Node)}
    (hne : ∀ g ∈ canonical, ∀ n ∈ g.snd, n.text ≠ "")
    {e : Entity} (he : e ∈ entitiesOfCanonical cat canonical) :
    (∃ s, e.name = some s ∧ s ≠ "") ↔
      ∃ m ∈ lookupG canonical (nameLabel e.label), e.coversNode m = true := by
  rcases mem_entitiesOfCanonical.mp he with ⟨g, hg, houter, n, hn, rfl⟩
  constructor
  · rintro ⟨s, hs, hsne⟩
    have hs' : Option.map Node.text (matchName canonical g.fst n) = some s := hs
    rcases Option.map_eq_some'.mp hs' with ⟨m0, hm0, hm0s⟩
    refine ⟨m0, List.mem_of_find?_eq_some hm0, ?_⟩
    exact List.find?_some hm0
  · rintro ⟨m, hm, hcov⟩
    have hsome :
        ((lookupG canonical (nameLabel g.fst)).find? fun m2 =>
          n.containsSpan m2).isSome :=
      List.find?_isSome.mpr ⟨m, hm, hcov⟩
    rcases Option.isSome_iff_exists.mp hsome with ⟨m0, hm0⟩
    refine ⟨m0.text, ?_, ?_⟩
    · show Option.map Node.text (matchName canonical g.fst n) = some m0.text
      rw [matchName, hm0, Option.map_some']
    · rcases mem_lookupG (List.mem_of_find?_eq_some hm0) with ⟨g2, hg2, hm0g2⟩
      exact hne g2 hg2 m0 hm0g2

theorem named_of_closed {lang cat pat : String}
    {evalQ : String → Except QueryError RawCaptures}
    (hlab : ∀ g ∈ canonicalOf evalQ pat, g.fst ∈ captureTokens pat)
    (hmatch : ∀ g ∈ canonicalOf evalQ pat, isOuterLabel g.fst = true →
      nameLabel g.fst ∈ captureTokens pat →
      ∀ n ∈ g.snd, ∃ m ∈ lookupG (canonicalOf evalQ pat) (nameLabel g.fst),
        n.containsSpan m = true)
    (hne : ∀ g ∈ canonicalOf evalQ pat, ∀ n ∈ g.snd, n.text ≠ "")
    (hclosed : ∀ lab ∈ captureTokens pat, isOuterLabel lab = true →
      nameLabel lab ∈ captureTokens pat) :
    ∀ e ∈ (extractCategory lang cat [pat] evalQ).fst,
      ∃ s, e.name = some s ∧ s ≠ "" := by
  intro e he
  rcases mem_extractCategory he with ⟨pat', hpat', hemem⟩
  rcases List.mem_singleton.mp hpat' with rfl
  rcases mem_entitiesOfCanonical.mp hemem with ⟨g, hg, houter, n, hn, rfl⟩
  have htok := hlab g hg
  have hnametok := hclosed g.fst htok houter
  rcases hmatch g hg houter hnametok n hn with ⟨m, hm, hcov⟩
  have hsome :
      ((lookupG (canonicalOf evalQ pat') (nameLabel g.fst)).find? fun m2 =>
        n.containsSpan m2).isSome :=
    List.find?_isSome.mpr ⟨m, hm, hcov⟩
  rcases Option.isSome_iff_exists.mp hsome with ⟨m0, hm0⟩
  refine ⟨m0.text, ?_, ?_⟩
  · show Option.map Node.text (matchName (canonicalOf evalQ pat') g.fst n) = some m0.text
    rw [matchName, hm0, Option.map_some']
  · rcases mem_lookupG (List.mem_of_find?_eq_some hm0) with ⟨g2, hg2, hm0g2⟩
    exact hne g2 hg2 m0 hm0g2

theorem unnamed_of_tokens {lang cat pat : String}
    {evalQ : String → Except QueryError RawCaptures}
    (hlab : ∀ g ∈ canonicalOf evalQ pat, g.fst ∈ captureTokens pat)
    (hnn : ∀ l1 ∈ captureTokens pat, ∀ l2 ∈ captureTokens pat,
      l1 ≠ nameLabel l2) :
    ∀ e ∈ (extractCategory lang cat [pat] evalQ).fst, e.name = none := by
  intro e he
  rcases mem_extractCategory he with ⟨pat', hpat', hemem⟩
  rcases List.mem_singleton.mp hpat' with rfl
  rcases mem_entitiesOfCanonical.mp hemem with ⟨g, hg, houter, n, hn, rfl⟩
  have hempty : lookupG (canonicalOf evalQ pat') (nameLabel g.fst) = [] := by
    apply lookupG_eq_nil
    intro g2 hg2
    exact hnn g2.fst (hlab g2 hg2) g.fst (hlab g hg)
  show Option.map Node.text (matchName (canonicalOf evalQ pat') g.fst n) = none
  rw [matchName, hempty]
  rfl

theorem map_congr_mem {l : List α} {f g : α → β}
    (h : ∀ a ∈ l, f a = g a) : l.map f = l.map g := by
  induction l with
  | nil => rfl
  | cons a as ih =>
    simp only [List.map_cons, h a (List.mem_cons_self _ _)]
    rw [ih fun x hx => h x (List.mem_cons_of_mem _ hx)]

theorem catMaps_congr {l : List α} {f g : α → List β}
    (h : ∀ a ∈ l, f a = g a) : catMaps f l = catMaps g l := by
  induction l with
  | nil => rfl
  | cons a as ih =>
    simp only [catMaps, h a (List.mem_cons_self _ _)]
    rw [ih fun x hx => h x (List.mem_cons_of_mem _ hx)]

theorem category_mem_merged {lang cat : String} {pats : List String}
    {evalQ : String → Except QueryError RawCaptures} {e : Entity}
    (he : e ∈ mergedEntities lang cat evalQ pats) : e.category = cat := by
  have h2 := (List.mem_insertionSort _).mp he
  rcases mem_catMaps.mp h2 with ⟨pr, hpr, hepr⟩
  rcases List.mem_map.mp hpr with ⟨ip, hip, rfl⟩
  rw [runPattern_fst] at hepr
  rcases mem_entitiesOfCanonical.mp hepr with ⟨g, hg, ho, n, hn, rfl⟩
  rfl

/-- The Java categories whose patterns pair every outer capture with a
`.name` capture. -/
def namedJavaTemplates : List (String × String) :=
  [("functions", javaFunctionsQuery), ("classes", javaClassesQuery),
   ("interfaces", javaInterfacesQuery), ("annotations", javaAnnotationsQuery),
   ("enums", javaEnumsQuery)]

/-- Modelled from the spec's stale-query scenario: an evaluator on a
grammar where the imports pattern no longer compiles while every other
pattern still evaluates as in the scenario grammar. -/
def failingEval (pat : String) : Except QueryError RawCaptures :=
  if pat = javaImportsQuery then
    Except.error (QueryError.queryCompileError
      "import_declaration field not found in grammar")
  else scenarioEval pat

set_option maxRecDepth 1000000 in
/-- C10: the registered Java template set (TEMPLATES in
src/tree-sitter-code-changes/java.py) and the corrected set
(FIXED_TEMPLATES in src/test_fixed_java_queries.py) hold
character-identical query strings on every category they share; the
registry set additionally defines an "enums" category that the corrected
set omits, and neither set holds any other category. -/
theorem claim10_registry_matches_fixed :
    TEMPLATES.lookup "functions" = FIXED_TEMPLATES.lookup "functions" ∧
    TEMPLATES.lookup "classes" = FIXED_TEMPLATES.lookup "classes" ∧
    TEMPLATES.lookup "interfaces" = FIXED_TEMPLATES.lookup "interfaces" ∧
    TEMPLATES.lookup "imports" = FIXED_TEMPLATES.lookup "imports" ∧
    TEMPLATES.lookup "annotations" = FIXED_TEMPLATES.lookup "annotations" ∧
    TEMPLATES.map Prod.fst =
      ["functions", "classes", "interfaces", "imports", "annotations", "enums"] ∧
    FIXED_TEMPLATES.map Prod.fst =
      ["functions", "classes", "interfaces", "imports", "annotations"] := by
  decide

set_option maxRecDepth 1000000 in
/-- C2: on the scenario file with one class, one constructor, one
annotated method and one wildcard import, extraction under the
registered Java template set yields one named class entity, two function
entities (constructor and method, the method named by its identifier),
one unnamed entity for the import and one named annotation entity. -/
theorem claim2_java_scenario_inventory :
    (extract "java" javaTemplateSet scenarioEval).fst.lookup "classes" =
      some [⟨"classes", "class", some "C", 2, 0, 7, 1,
        "class C \x7b\n    C() \x7b\x7d\n\n    @Anno\n    void m() \x7b\x7d\n\x7d"⟩] ∧
    (extract "java" javaTemplateSet scenarioEval).fst.lookup "functions" =
      some [⟨"functions", "constructor", some "C", 3, 4, 3, 10, "C() \x7b\x7d"⟩,
        ⟨"functions", "function", some "m", 5, 4, 6, 15,
          "@Anno\n    void m() \x7b\x7d"⟩] ∧
    (extract "java" javaTemplateSet scenarioEval).fst.lookup "imports" =
      some [⟨"imports", "import", none, 0, 0, 0, 11, "import p.*;"⟩] ∧
    (extract "java" javaTemplateSet scenarioEval).fst.lookup "annotations" =
      some [⟨"annotations", "annotation", some "Anno", 5, 4, 5, 9, "@Anno"⟩] := by
  decide

/-- C9: extraction is pure with respect to the shared registry state: the
threaded registry comes back unchanged, and a second call made on the
state returned by the first yields the identical result. -/
theorem claim9_extract_pure (reg : Registry) (lang : String)
    (evalQ : String → Except QueryError RawCaptures) :
    (extractThreaded reg lang evalQ).snd = reg ∧
    (extractThreaded (extractThreaded reg lang evalQ).snd lang evalQ).fst =
      (extractThreaded reg lang evalQ).fst :=
  ⟨rfl, rfl⟩

/-- C5: get_templates fails with UnsupportedLanguage exactly when the
language is not registered, and for every registered language
`extractLang` returns an inventory with diagnostics (never an error),
whatever the per-pattern evaluator does. -/
theorem claim5_unsupported_language_policy :
    (∀ lang, get_templates lang =
        Except.error (ExtractError.unsupportedLanguage lang) ↔
      registry.lookup lang = none) ∧
    (∀ lang T, registry.lookup lang = some T →
      get_templates lang = Except.ok T) ∧
    (∀ lang evalQ, registry.lookup lang = none →
      extractLang lang evalQ =
        Except.error (ExtractError.unsupportedLanguage lang)) ∧
    (∀ lang T evalQ, registry.lookup lang = some T →
      extractLang lang evalQ = Except.ok (extract lang T evalQ)) := by
  refine ⟨?_, ?_, ?_, ?_⟩
  · intro lang
    constructor
    · intro h
      cases hl : registry.lookup lang with
      | none => rfl
      | some t =>
        unfold get_templates at h
        rw [hl] at h
        cases h
    · intro h
      unfold get_templates
      rw [h]
  · intro lang T h
    unfold get_templates
    rw [h]
  · intro lang evalQ h
    unfold extractLang get_templates
    rw [h]
    rfl
  · intro lang T evalQ h
    unfold extractLang get_templates
    rw [h]
    rfl

/-- Witness for C5 at the concrete registry: "java" is registered and
extracts, "python" is not and fails with UnsupportedLanguage. -/
theorem claim5_unsupported_language_policy_witness :
    get_templates "python" =
      Except.error (ExtractError.unsupportedLanguage "python") ∧
    get_templates "java" = Except.ok javaTemplateSet ∧
    extractLang "java" scenarioEval =
      Except.ok (extract "java" javaTemplateSet scenarioEval) :=
  ⟨(claim5_unsupported_language_policy.1 "python").mpr rfl,
   claim5_unsupported_language_policy.2.1 "java" javaTemplateSet rfl,
   claim5_unsupported_language_policy.2.2.2 "java" javaTemplateSet
     scenarioEval rfl⟩

/-- C4: the inventory has exactly the template set's category keys: a
registered category always appears (with `some []` when no pattern of the
category contributed an entity), and a category is absent from the
inventory exactly when it is absent from the template set. -/
theorem claim4_category_keys_complete (lang : String)
    (T : List (String × List String))
    (evalQ : String → Except QueryError RawCaptures) :
    ((extract lang T evalQ).fst.map Prod.fst = T.map Prod.fst) ∧
    (∀ cat pats, T.lookup cat = some pats →
      (extract lang T evalQ).fst.lookup cat =
        some (extractCategory lang cat pats evalQ).fst) ∧
    (∀ cat pats, T.lookup cat = some pats →
      (∀ ip ∈ idxFrom 0 pats,
        (runPattern lang cat ip.fst evalQ ip.snd).fst = []) →
      (extract lang T evalQ).fst.lookup cat = some []) ∧
    (∀ cat, T.lookup cat = none →
      (extract lang T evalQ).fst.lookup cat = none) := by
  refine ⟨extract_keys lang T evalQ, ?_, ?_, ?_⟩
  · intro cat pats h
    rw [lookup_extract, h]
    rfl
  · intro cat pats h hempty
    rw [lookup_extract, h]
    have hnil : catMaps Prod.fst (patternResults lang cat evalQ pats) = [] := by
      apply catMaps_eq_nil
      intro pr hpr
      rcases List.mem_map.mp hpr with ⟨ip, hip, rfl⟩
      exact hempty ip hip
    simp [extractCategory, mergedEntities, hnil, dedupTriples, dedupTriplesGo]
  · intro cat h
    rw [lookup_extract, h]
    rfl

set_option maxRecDepth 1000000 in
/-- Witness for C4: in the scenario, "interfaces" is registered but
matches nothing and still appears with an empty list, while the
unregistered "traits" key is absent. -/
theorem claim4_category_keys_complete_witness :
    (extract "java" javaTemplateSet scenarioEval).fst.lookup "interfaces" =
      some [] ∧
    (extract "java" javaTemplateSet scenarioEval).fst.lookup "traits" = none :=
  ⟨(claim4_category_keys_complete "java" javaTemplateSet scenarioEval).2.2.1
      "interfaces" [javaInterfacesQuery] (by decide) (by decide),
   (claim4_category_keys_complete "java" javaTemplateSet scenarioEval).2.2.2
      "traits" (by decide)⟩

/-- C7: every category list of the inventory is in non-decreasing
source-position order, the contributions of all patterns of the category
having been merged by start position. -/
theorem claim7_category_order (lang : String)
    (T : List (String × List String))
    (evalQ : String → Except QueryError RawCaptures)
    (cat : String) (l : List Entity)
    (h : (extract lang T evalQ).fst.lookup cat = some l) :
    l.Pairwise Entity.posLe := by
  rw [lookup_extract] at h
  cases hl : T.lookup cat with
  | none =>
    rw [hl] at h
    cases h
  | some pats =>
    rw [hl] at h
    simp only [Option.map_some', Option.some.injEq] at h
    subst h
    have hsorted : (mergedEntities lang cat evalQ pats).Pairwise Entity.posLe :=
      List.sorted_insertionSort Entity.posLe _
    exact List.Pairwise.sublist (dedupTriplesGo_sublist [] _) hsorted

set_option maxRecDepth 1000000 in
/-- Witness for C7: the two function entities of the scenario come out
ordered by start position (constructor on line 3 before method on line 5). -/
theorem claim7_category_order_witness :
    ([⟨"functions", "constructor", some "C", 3, 4, 3, 10, "C() \x7b\x7d"⟩,
      ⟨"functions", "function", some "m", 5, 4, 6, 15,
        "@Anno\n    void m() \x7b\x7d"⟩] : List Entity).Pairwise Entity.posLe :=
  claim7_category_order "java" javaTemplateSet scenarioEval "functions" _
    (by decide)

/-- C1: when one category's pattern fails to evaluate, the layer records a
diagnostic naming (language, category, pattern index, error), that
pattern contributes no entities, every other category's result is the
same as extraction without the failing pattern, and the whole-file
inventory keeps all its category keys. -/
theorem claim1_query_failure_isolated (lang : String)
    (T : List (String × List String))
    (evalQ : String → Except QueryError RawCaptures) (cat : String)
    (pats : List String) (i : Nat) (pat : String) (err : QueryError)
    (hc : T.lookup cat = some pats) (hp : pats[i]? = some pat)
    (he : evalQ pat = Except.error err) :
    (⟨lang, cat, i, err.message⟩ : Diagnostic) ∈ (extract lang T evalQ).snd ∧
    (runPattern lang cat i evalQ pat).fst = [] ∧
    (∀ cat2, cat2 ≠ cat →
      (extract lang T evalQ).fst.lookup cat2 =
        (extract lang (removePattern T cat i) evalQ).fst.lookup cat2) ∧
    (extract lang T evalQ).fst.map Prod.fst = T.map Prod.fst := by
  refine ⟨?_, ?_, ?_, extract_keys lang T evalQ⟩
  · have hmemT : (cat, pats) ∈ T := lookup_mem hc
    have hip : (i, pat) ∈ idxFrom 0 pats := mem_idxFrom_zero hp
    apply mem_catMaps.mpr
    refine ⟨(cat, pats), hmemT, ?_⟩
    apply mem_catMaps.mpr
    refine ⟨runPattern lang cat i evalQ pat, ?_, ?_⟩
    · exact List.mem_map.mpr ⟨(i, pat), hip, rfl⟩
    · simp [runPattern, he]
  · simp [runPattern, he]
  · intro cat2 hne
    rw [lookup_extract, lookup_extract, lookup_removePattern T cat i hne]

set_option maxRecDepth 1000000 in
/-- Witness for C1: failing the imports pattern records its diagnostic and
leaves the "functions" result identical to extraction without that
pattern. -/
theorem claim1_query_failure_isolated_witness :
    (⟨"java", "imports", 0,
        "import_declaration field not found in grammar"⟩ : Diagnostic) ∈
      (extract "java" javaTemplateSet failingEval).snd ∧
    (extract "java" javaTemplateSet failingEval).fst.lookup "functions" =
      (extract "java" (removePattern javaTemplateSet "imports" 0)
        failingEval).fst.lookup "functions" :=
  ⟨(claim1_query_failure_isolated "java" javaTemplateSet failingEval
      "imports" [javaImportsQuery] 0 javaImportsQuery
      (QueryError.queryCompileError
        "import_declaration field not found in grammar")
      (by decide) (by decide) rfl).1,
   (claim1_query_failure_isolated "java" javaTemplateSet failingEval
      "imports" [javaImportsQuery] 0 javaImportsQuery
      (QueryError.queryCompileError
        "import_declaration field not found in grammar")
      (by decide) (by decide) rfl).2.2.1 "functions" (by decide)⟩

/-- C3: normalization is canonical — two raw results describing the same
captures label by label (in particular a flat pair list and a grouped
mapping of the same captures) normalize to one and the same shape, and
extraction depends on the evaluator only through the normalizer, so no
layer above the adapter can observe the raw output shape. -/
theorem claim3_normalizer_canonical :
    (∀ r1 r2 : RawCaptures, (∀ lab, rawNodes r1 lab = rawNodes r2 lab) →
      normalize r1 = normalize r2) ∧
    (∀ r : RawCaptures,
      normalize (RawCaptures.grouped (normalize r)) = normalize r) ∧
    (∀ (lang : String) (T : List (String × List String))
        (evalQ1 evalQ2 : String → Except QueryError RawCaptures),
      (∀ pat, Except.map normalize (evalQ1 pat) =
        Except.map normalize (evalQ2 pat)) →
      extract lang T evalQ1 = extract lang T evalQ2) := by
  refine ⟨fun r1 r2 h => normalize_ext h, ?_, ?_⟩
  · intro r
    exact normalize_ext fun lab => rawNodes_grouped_normalize r lab
  · intro lang T e1 e2 h
    have hrun : ∀ cat i pat,
        runPattern lang cat i e1 pat = runPattern lang cat i e2 pat := by
      intro cat i pat
      have hp := h pat
      cases h1 : e1 pat with
      | ok raw1 =>
        cases h2 : e2 pat with
        | ok raw2 =>
          rw [h1, h2] at hp
          simp only [Except.map] at hp
          have hnorm : normalize raw1 = normalize raw2 := by
            injection hp
          simp [runPattern, h1, h2, hnorm]
        | error err2 =>
          rw [h1, h2] at hp
          simp [Except.map] at hp
      | error err1 =>
        cases h2 : e2 pat with
        | ok raw2 =>
          rw [h1, h2] at hp
          simp [Except.map] at hp
        | error err2 =>
          rw [h1, h2] at hp
          simp only [Except.map] at hp
          have herr : err1 = err2 := by
            injection hp
          simp [runPattern, h1, h2, herr]
    have hpr : ∀ cat pats,
        patternResults lang cat e1 pats = patternResults lang cat e2 pats := by
      intro cat pats
      unfold patternResults
      exact map_congr_mem fun ip _ => hrun cat ip.fst ip.snd
    have hcat : ∀ cat pats,
        extractCategory lang cat pats e1 = extractCategory lang cat pats e2 := by
      intro cat pats
      unfold extractCategory mergedEntities
      rw [hpr]
    unfold extract
    rw [map_congr_mem fun c _ => by rw [hcat c.fst c.snd],
      catMaps_congr fun c _ => by rw [hcat c.fst c.snd]]

/-- Witness for C3: the scenario's annotation captures, re-delivered in
the grouped shape, normalize identically to the flat delivery. -/
theorem claim3_normalizer_canonical_witness :
    normalize (RawCaptures.grouped (normalize (RawCaptures.flat
      [(annoNode, "annotation"), (annoNameNode, "annotation.name")]))) =
      normalize (RawCaptures.flat
        [(annoNode, "annotation"), (annoNameNode, "annotation.name")]) :=
  claim3_normalizer_canonical.1 _ _
    (fun lab => rawNodes_grouped_normalize _ lab)

/-- C8: the normalizer keeps every capture event of every label (nested
and overlapping nodes included, no deduplication), and within a category
only exactly equal (category, span, label) triples are collapsed: every
merged entity keeps a representative of its triple, and two entities with
equal spans but different labels are both retained as distinct entities. -/
theorem claim8_overlap_retention :
    (∀ (r : RawCaptures) (lab : String),
      lookupG (normalize r) lab = rawNodes r lab) ∧
    (∀ (lang cat : String) (pats : List String)
        (evalQ : String → Except QueryError RawCaptures),
      ((extractCategory lang cat pats evalQ).fst =
        dedupTriples (mergedEntities lang cat evalQ pats)) ∧
      ((extractCategory lang cat pats evalQ).fst.Pairwise
        fun a b => a.triple ≠ b.triple) ∧
      (∀ e ∈ mergedEntities lang cat evalQ pats,
        ∃ e2 ∈ (extractCategory lang cat pats evalQ).fst,
          e2.triple = e.triple) ∧
      (∀ e1 ∈ mergedEntities lang cat evalQ pats,
        ∀ e2 ∈ mergedEntities lang cat evalQ pats,
          e1.span = e2.span → e1.label ≠ e2.label →
          ∃ a ∈ (extractCategory lang cat pats evalQ).fst,
            ∃ b ∈ (extractCategory lang cat pats evalQ).fst,
              a.triple = e1.triple ∧ b.triple = e2.triple ∧ a ≠ b)) := by
  refine ⟨fun r lab => lookupG_normalize r lab, ?_⟩
  intro lang cat pats evalQ
  refine ⟨rfl, dedupTriplesGo_nodup [] _, fun e he => dedupTriples_retains he, ?_⟩
  intro e1 h1 e2 h2 hspan hlabel
  rcases dedupTriples_retains h1 with ⟨a, ha, hat⟩
  rcases dedupTriples_retains h2 with ⟨b, hb, hbt⟩
  refine ⟨a, ha, b, hb, hat, hbt, ?_⟩
  intro hab
  apply hlabel
  have htr : e1.triple = e2.triple := by rw [← hat, hab, hbt]
  have hlab := congrArg (fun t : String × (Nat × Nat × Nat × Nat) × String =>
    t.snd.snd) htr
  simpa [Entity.triple] using hlab

set_option maxRecDepth 1000000 in
/-- Witness for C8: the scenario's annotation run keeps both the outer
annotation node and its nested name node in the normalized output, and
the annotation entity's triple survives the merge. -/
theorem claim8_overlap_retention_witness :
    lookupG (normalize (RawCaptures.flat
        [(annoNode, "annotation"), (annoNameNode, "annotation.name")]))
      "annotation.name" = [annoNameNode] ∧
    (∃ e2 ∈ (extractCategory "java" "annotations" [javaAnnotationsQuery]
        scenarioEval).fst,
      e2.triple = (⟨"annotations", "annotation", some "Anno", 5, 4, 5, 9,
        "@Anno"⟩ : Entity).triple) :=
  ⟨by
    rw [claim8_overlap_retention.1]
    decide,
   (claim8_overlap_retention.2 "java" "annotations" [javaAnnotationsQuery]
      scenarioEval).2.2.1
     ⟨"annotations", "annotation", some "Anno", 5, 4, 5, 9, "@Anno"⟩
     (by decide)⟩

set_option maxRecDepth 1000000 in
/-- C6: an entity's name is a non-empty string exactly when its
originating match holds an enclosed capture under the `.name`-suffixed
label (name is absent otherwise, never a placeholder); and under the
registered Java template set — for any evaluator that reports only labels
declared by the pattern, pairs every outer capture with its declared
`.name` capture, and yields non-empty node text — every entity of
functions, classes, interfaces, annotations and enums is named while
every imports entity is unnamed. -/
theorem claim6_naming_invariant :
    (∀ (cat : String) (canonical : List (String × List Node)),
      (∀ g ∈ canonical, ∀ n ∈ g.snd, n.text ≠ "") →
      ∀ e ∈ entitiesOfCanonical cat canonical,
        ((∃ s, e.name = some s ∧ s ≠ "") ↔
          ∃ m ∈ lookupG canonical (nameLabel e.label),
            e.coversNode m = true)) ∧
    (∀ evalQ : String → Except QueryError RawCaptures,
      (∀ cp ∈ TEMPLATES, ∀ g ∈ canonicalOf evalQ cp.snd,
        g.fst ∈ captureTokens cp.snd) →
      (∀ cp ∈ TEMPLATES, ∀ g ∈ canonicalOf evalQ cp.snd,
        isOuterLabel g.fst = true → nameLabel g.fst ∈ captureTokens cp.snd →
        ∀ n ∈ g.snd,
          ∃ m ∈ lookupG (canonicalOf evalQ cp.snd) (nameLabel g.fst),
            n.containsSpan m = true) →
      (∀ cp ∈ TEMPLATES, ∀ g ∈ canonicalOf evalQ cp.snd, ∀ n ∈ g.snd,
        n.text ≠ "") →
      (∀ e ∈ (extractCategory "java" "imports" [javaImportsQuery] evalQ).fst,
        e.name = none) ∧
      (∀ cp ∈ namedJavaTemplates,
        ∀ e ∈ (extractCategory "java" cp.fst [cp.snd] evalQ).fst,
          ∃ s, e.name = some s ∧ s ≠ "")) := by
  constructor
  · intro cat canonical hne e he
    exact naming_core hne he
  · intro evalQ hlab hmatch hne
    have hm1 : ("functions", javaFunctionsQuery) ∈ TEMPLATES :=
      List.Mem.head _
    have hm2 : ("classes", javaClassesQuery) ∈ TEMPLATES :=
      List.Mem.tail _ (List.Mem.head _)
    have hm3 : ("interfaces", javaInterfacesQuery) ∈ TEMPLATES :=
      List.Mem.tail _ (List.Mem.tail _ (List.Mem.head _))
    have hm4 : ("imports", javaImportsQuery) ∈ TEMPLATES :=
      List.Mem.tail _ (List.Mem.tail _ (List.Mem.tail _ (List.Mem.head _)))
    have hm5 : ("annotations", javaAnnotationsQuery) ∈ TEMPLATES :=
      List.Mem.tail _ (List.Mem.tail _ (List.Mem.tail _
        (List.Mem.tail _ (List.Mem.head _))))
    have hm6 : ("enums", javaEnumsQuery) ∈ TEMPLATES :=
      List.Mem.tail _ (List.Mem.tail _ (List.Mem.tail _
        (List.Mem.tail _ (List.Mem.tail _ (List.Mem.head _)))))
    constructor
    · exact unnamed_of_tokens (hlab _ hm4) (by decide)
    · intro cp hcp
      simp only [namedJavaTemplates, List.mem_cons,
        List.not_mem_nil, or_false] at hcp
      rcases hcp with rfl | rfl | rfl | rfl | rfl
      · exact named_of_closed (hlab _ hm1) (hmatch _ hm1) (hne _ hm1)
          (by decide)
      · exact named_of_closed (hlab _ hm2) (hmatch _ hm2) (hne _ hm2)
          (by decide)
      · exact named_of_closed (hlab _ hm3) (hmatch _ hm3) (hne _ hm3)
          (by decide)
      · exact named_of_closed (hlab _ hm5) (hmatch _ hm5) (hne _ hm5)
          (by decide)
      · exact named_of_closed (hlab _ hm6) (hmatch _ hm6) (hne _ hm6)
          (by decide)

set_option maxRecDepth 1000000 in
/-- Witness for C6 under the scenario evaluator: the wildcard-import
entity carries no name and the method entity carries the non-empty name
"m". -/
theorem claim6_naming_invariant_witness :
    (⟨"imports", "import", none, 0, 0, 0, 11,
        "import p.*;"⟩ : Entity).name = none ∧
    (∃ s, (⟨"functions", "function", some "m", 5, 4, 6, 15,
        "@Anno\n    void m() \x7b\x7d"⟩ : Entity).name = some s ∧ s ≠ "") :=
  ⟨(claim6_naming_invariant.2 scenarioEval (by decide) (by decide)
      (by decide)).1 _ (by decide),
   (claim6_naming_invariant.2 scenarioEval (by decide) (by decide)
      (by decide)).2 ("functions", javaFunctionsQuery) (List.Mem.head _) _
     (by decide)⟩

end Resilience
